import Mathlib

/-!
Verification development for the Garden Optimization Problem (GOP) tutorial:
a QUBO encoding of a plant-placement problem, together with the evaluation,
feasibility, sampling post-processing, ranking and plotting pipeline of the
notebook `Exercise-GOP-QAOA.ipynb`.

Modelling conventions: Python dictionaries with a fixed key set are modelled
as structures; bitstrings as `List Bool` (head of the list is the first
character of the string); numeric values as `ℚ`; fallible operations as
`Except`. The class `GardenOptimizationProblem` is imported by the notebook
from a file that is not part of this repository snapshot, so its methods
(`build_garden`, `build_qubo`, `evaluate_objective`, `is_feasible`) are
modelled from the spec, as marked in their doc comments. Everything defined
from the notebook itself (the `sampling`, `plot_solutions`,
`store_intermediate_result` functions and the ranking cell) is translated
directly from the notebook source.
-/

namespace GOP

/-- Error taxonomy of the model (spec section 7): bad grid dimensions, bad
companion data, species counts not covering all pots, and candidate vectors
of the wrong length. -/
inductive GOPError where
  | invalidShape
  | unknownSpecies
  | asymmetry
  | sizeMismatch
  | lengthMismatch
  deriving DecidableEq, Repr

/-- Modelled from the spec: GridTopology for an R×C grid of pots. Pots are
indexed in row-major order; `edges` lists each undirected 4-neighbor
adjacency once. -/
structure GridTopology where
  rows : Nat
  cols : Nat
  edges : List (Nat × Nat)
  deriving DecidableEq, Repr

/-- Pot index of grid cell (r, c) in row-major order. -/
def potId (cols r c : Nat) : Nat := r * cols + c

/-- Modelled from the spec: the 4-connected grid adjacency, edges undirected
and listed once (right neighbor and down neighbor of every cell), no
self-loops. -/
def gridEdges (rows cols : Nat) : List (Nat × Nat) :=
  (List.range rows).flatMap fun r =>
    (List.range cols).flatMap fun c =>
      (if c + 1 < cols then [(potId cols r c, potId cols r (c + 1))] else []) ++
      (if r + 1 < rows then [(potId cols r c, potId cols (r + 1) c)] else [])

/-- Modelled from the spec: `build_garden` (GridTopology.build of the missing
`GardenOptimizationProblem.py`) validates rows, cols ≥ 1 and constructs the
4-neighbor adjacency; fails with `InvalidShapeError` otherwise. -/
def build_garden (rows cols : Nat) : Except GOPError GridTopology :=
  if rows = 0 ∨ cols = 0 then .error .invalidShape
  else .ok { rows := rows, cols := cols, edges := gridEdges rows cols }

/-- Total pot count of a topology. -/
def numPots (t : GridTopology) : Nat := t.rows * t.cols

/-- Modelled from the spec: SpeciesCatalog holding, per selected species, its
required occurrence count and size class, plus the pairwise companion matrix
(scores in {-1, 0, +1}). -/
structure SpeciesCatalog where
  count : List Nat
  size : List Int
  companion : List (List Int)
  deriving DecidableEq, Repr

/-- Number of selected species. -/
def numSpecies (cat : SpeciesCatalog) : Nat := cat.count.length

/-- Companion score of the ordered species pair (s, t); 0 outside the matrix. -/
def companionAt (cat : SpeciesCatalog) (s t : Nat) : Int :=
  (cat.companion.getD s []).getD t 0

/-- Size class of species s. -/
def sizeAt (cat : SpeciesCatalog) (s : Nat) : Int := cat.size.getD s 0

/-- Required occurrence count of species s. -/
def countAt (cat : SpeciesCatalog) (s : Nat) : Nat := cat.count.getD s 0

/-- BinaryVariable index of (pot i, species s): i * num_species + s. -/
def varIndex (ns i s : Nat) : Nat := i * ns + s

/-- QUBO instance: symmetric quadratic matrix Q, linear vector c and constant
offset, all over the BinaryVariable index space of size n. -/
structure QUBOInstance where
  n : Nat
  Q : List (List ℚ)
  c : List ℚ
  offset : ℚ
  deriving DecidableEq, Repr

/-- Entry Q[i][j] of the quadratic matrix (0 outside the matrix). -/
def qEntry (inst : QUBOInstance) (i j : Nat) : ℚ := (inst.Q.getD i []).getD j 0

/-- Entry c[i] of the linear vector (0 outside the vector). -/
def cEntry (inst : QUBOInstance) (i : Nat) : ℚ := inst.c.getD i 0

/-- Value of bit i of a candidate vector, as a rational (0 outside the vector). -/
def bitval (x : List Bool) (i : Nat) : ℚ := if x.getD i false then 1 else 0

/-- Quadratic part xᵀQx of the objective, as a double list sum. -/
def quadSum (inst : QUBOInstance) (x : List Bool) : ℚ :=
  ((List.range inst.n).map fun i =>
    ((List.range inst.n).map fun j => bitval x i * qEntry inst i j * bitval x j).sum).sum

/-- Linear part cᵀx of the objective. -/
def linSum (inst : QUBOInstance) (x : List Bool) : ℚ :=
  ((List.range inst.n).map fun i => cEntry inst i * bitval x i).sum

/-- Objective value xᵀQx + cᵀx + offset of a candidate vector. -/
def objectiveValue (inst : QUBOInstance) (x : List Bool) : ℚ :=
  quadSum inst x + linSum inst x + inst.offset

/-- Modelled from the spec: `evaluate_objective` of the missing
`GardenOptimizationProblem.py`: computes xᵀQx + cᵀx + offset for a
full-length binary vector and fails with `LengthMismatchError` when the
vector length differs from the variable count. -/
def evaluate_objective (inst : QUBOInstance) (x : List Bool) : Except GOPError ℚ :=
  if x.length = inst.n then .ok (objectiveValue inst x) else .error .lengthMismatch

/-- Value of bit i of a candidate vector, as a natural number. -/
def bitn (x : List Bool) (i : Nat) : Nat := if x.getD i false then 1 else 0

/-- Number of species planted in pot i by the candidate vector x. -/
def potSum (ns : Nat) (x : List Bool) (i : Nat) : Nat :=
  ((List.range ns).map fun s => bitn x (varIndex ns i s)).sum

/-- Number of pots planted with species s by the candidate vector x. -/
def speciesSum (np ns : Nat) (x : List Bool) (s : Nat) : Nat :=
  ((List.range np).map fun i => bitn x (varIndex ns i s)).sum

/-- Modelled from the spec: `is_feasible` of the missing
`GardenOptimizationProblem.py`: re-checks, independently of the penalty
weights, that every pot has exactly one species and every species s occurs
exactly count[s] times; the shading constraint is soft and does not enter. -/
def is_feasible (np ns : Nat) (count : List Nat) (x : List Bool) : Bool :=
  ((List.range np).all fun i => potSum ns x i == 1) &&
  ((List.range ns).all fun s => speciesSum np ns x s == count.getD s 0)

/-- Pot component of a BinaryVariable index. -/
def potOf (ns a : Nat) : Nat := a / ns

/-- Species component of a BinaryVariable index. -/
def spOf (ns a : Nat) : Nat := a % ns

/-- Modelled from the spec: adjacency-reward coefficient of the unordered
variable pair {a, b}: over every topology edge (pot i, pot j) and ordered
species pair (s, t), the companion score couples variables (i,s) and (j,t). -/
def adjCoeff (t : GridTopology) (cat : SpeciesCatalog) (a b : Nat) : ℚ :=
  let ns := numSpecies cat
  (t.edges.map fun e =>
    (if e.1 = potOf ns a ∧ e.2 = potOf ns b then
      (companionAt cat (spOf ns a) (spOf ns b) : ℚ) else 0) +
    (if e.1 = potOf ns b ∧ e.2 = potOf ns a then
      (companionAt cat (spOf ns b) (spOf ns a) : ℚ) else 0)).sum

/-- Modelled from the spec: shading-penalty coefficient of the unordered
variable pair {a, b}: for adjacent pots, a quadratic term keyed on the
size-class ordering, discouraging a larger species next to a smaller one. -/
def shadeCoeff (t : GridTopology) (cat : SpeciesCatalog) (a b : Nat) : ℚ :=
  let ns := numSpecies cat
  (t.edges.map fun e =>
    (if e.1 = potOf ns a ∧ e.2 = potOf ns b ∧
        sizeAt cat (spOf ns b) < sizeAt cat (spOf ns a) then (1 : ℚ) else 0) +
    (if e.1 = potOf ns b ∧ e.2 = potOf ns a ∧
        sizeAt cat (spOf ns a) < sizeAt cat (spOf ns b) then (1 : ℚ) else 0)).sum

/-- Modelled from the spec: total coefficient of x_a·x_b (a ≠ b) in the
objective: adjacency reward, λ3-weighted shading, the cross terms 2·λ1 of the
per-pot one-hot penalty and 2·λ2 of the per-species count penalty. -/
def pairCoeff (t : GridTopology) (cat : SpeciesCatalog) (l1 l2 l3 : ℚ) (a b : Nat) : ℚ :=
  let ns := numSpecies cat
  adjCoeff t cat a b + l3 * shadeCoeff t cat a b +
  (if potOf ns a = potOf ns b ∧ spOf ns a ≠ spOf ns b then 2 * l1 else 0) +
  (if spOf ns a = spOf ns b ∧ potOf ns a ≠ potOf ns b then 2 * l2 else 0)

/-- Modelled from the spec: linear coefficient of x_a from expanding the two
squared one-hot penalties (x² = x on binaries). -/
def linCoeff (cat : SpeciesCatalog) (l1 l2 : ℚ) (ns a : Nat) : ℚ :=
  -l1 + l2 * (1 - 2 * (countAt cat (spOf ns a) : ℚ))

/-- Modelled from the spec: constant offset from expanding the squared
one-hot penalties: λ1 per pot plus λ2·count[s]² per species. -/
def offsetOf (t : GridTopology) (cat : SpeciesCatalog) (l1 l2 : ℚ) : ℚ :=
  l1 * (numPots t : ℚ) + l2 * (cat.count.map fun cs => ((cs : ℚ)) ^ 2).sum

/-- Modelled from the spec: `build_qubo` of the missing
`GardenOptimizationProblem.py`: validates that the species counts cover all
pots (`SizeMismatchError` otherwise) and assembles the symmetric Q, linear c
and offset from the four additive terms. Off-diagonal entries carry half the
pair coefficient so that xᵀQx contributes each unordered pair once. -/
def build_qubo (t : GridTopology) (cat : SpeciesCatalog) (l1 l2 l3 : ℚ) :
    Except GOPError QUBOInstance :=
  let n := numPots t * numSpecies cat
  if numPots t = cat.count.sum then
    .ok { n := n
        , Q := (List.range n).map fun a => (List.range n).map fun b =>
            if a = b then 0 else pairCoeff t cat l1 l2 l3 a b / 2
        , c := (List.range n).map fun a => linCoeff cat l1 l2 (numSpecies cat) a
        , offset := offsetOf t cat l1 l2 }
  else .error .sizeMismatch

/-- Bit-vector built by the notebook `sampling` function from a measurement
string s: `np.asarray([int(y) for y in reversed(list(s))])`, with the string
characters modelled as booleans. -/
def measuredToX (s : List Bool) : List Bool := s.reverse

/-- Fixed-shape record modelling the Python dict with exactly the four keys
"x", "prob", "obj", "feas" that the notebook `sampling` function builds for
every measured bitstring. -/
structure Sol where
  x : List Bool
  prob : ℚ
  obj : ℚ
  feas : Bool
  deriving DecidableEq, Repr

/-- Post-processing loop of the notebook `sampling` function: for each
(bitstring, count) pair of the measurement result, reverse the string,
evaluate objective and feasibility on the reversed vector, and record
prob = count / n_shots. The quantum execution producing `counts` is an
external collaborator and is not modelled. -/
def sampling (inst : QUBOInstance) (np ns : Nat) (count : List Nat)
    (counts : List (List Bool × Nat)) (n_shots : Nat) : List Sol :=
  counts.map fun sp =>
    { x := measuredToX sp.1
    , prob := (sp.2 : ℚ) / (n_shots : ℚ)
    , obj := objectiveValue inst (measuredToX sp.1)
    , feas := is_feasible np ns count (measuredToX sp.1) }

/-- Comparison used by the ranking cell: ascending objective value. -/
def solLE (a b : Sol) : Prop := a.obj ≤ b.obj

instance : DecidableRel solLE := fun a b => inferInstanceAs (Decidable (a.obj ≤ b.obj))

instance : IsTotal Sol solLE := ⟨fun a b => le_total a.obj b.obj⟩

instance : IsTrans Sol solLE := ⟨fun _ _ _ h1 h2 => le_trans h1 h2⟩

/-- The notebook ranking cell
`lowest_obj_solutions = sorted(sols, key=lambda kv: kv["obj"])`: Python's
`sorted` is a stable ascending sort, modelled by insertion sort. -/
def rank (sols : List Sol) : List Sol := List.insertionSort solLE sols

/-- Data computed by `plot_solutions` for one labelled solution list: the
objective, probability and feasibility columns, plus the feasible-only
columns drawn when `show_feasible` is set. -/
structure SeriesData where
  xs : List ℚ
  ys : List ℚ
  zs : List Bool
  xsFeas : List ℚ
  ysFeas : List ℚ
  deriving DecidableEq, Repr

/-- Per-series body of the notebook `plot_solutions` loop: when `sort_obj`
is set, the local name `sol` is rebound to `sorted(sol, ...)`, a fresh list;
the feasible columns are obtained by zipping x, y, z and filtering on z. -/
def seriesOf (sortObj showFeasible : Bool) (sol : List Sol) : SeriesData :=
  let sol2 := if sortObj then rank sol else sol
  let xs := sol2.map Sol.obj
  let ys := sol2.map Sol.prob
  let zs := sol2.map Sol.feas
  let feasRows := ((xs.zip ys).zip zs).filter fun tr => tr.2
  { xs := xs, ys := ys, zs := zs
  , xsFeas := if showFeasible then feasRows.map fun tr => tr.1.1 else []
  , ysFeas := if showFeasible then feasRows.map fun tr => tr.1.2 else [] }

/-- The notebook `plot_solutions` function, as a state transformer on its
`dict_sols` argument: it returns the plot data of every labelled series
together with the final state of `dict_sols`. Python's `sorted` returns a
fresh list and the loop only rebinds the local name `sol`, so the
caller-visible dictionary and its lists are returned unchanged. -/
def plot_solutions (dict_sols : List (String × List Sol)) (exactRef : ℚ)
    (showFeasible sortObj : Bool) :
    List (String × SeriesData) × List (String × List Sol) :=
  ((dict_sols.map fun ls => (ls.1, seriesOf sortObj showFeasible ls.2)), dict_sols)

/-- State of the optimization-history cell: the two module-level lists
`counts` and `values` that `store_intermediate_result` appends to. -/
structure OptHistory where
  counts : List ℚ
  values : List ℚ
  deriving DecidableEq, Repr

/-- The notebook callback `store_intermediate_result(eval_count, parameters,
mean, std)`: appends `eval_count` to `counts` and the offset-corrected value
`mean + offset` to `values`; `parameters` and `std` are unused. -/
def store_intermediate_result (offset : ℚ) (st : OptHistory)
    (eval_count : ℚ) (parameters : List ℚ) (mean : ℚ) (std : ℚ) : OptHistory :=
  { counts := st.counts ++ [eval_count], values := st.values ++ [mean + offset] }

/-- A sequence of callback invocations, each carrying (eval_count,
parameters, mean, std), applied in order to the history state. -/
def runCallbacks (offset : ℚ) (st : OptHistory)
    (invs : List (ℚ × List ℚ × ℚ × ℚ)) : OptHistory :=
  invs.foldl (fun s t => store_intermediate_result offset s t.1 t.2.1 t.2.2.1 t.2.2.2) st

/-- N-bit binary representation of k with bit 0 first, matching the
BinaryVariable indexing convention (bit 0 = variable index 0). -/
def binVec (N k : Nat) : List Bool :=
  (List.range N).map fun i => k / 2 ^ i % 2 == 1

/-- Candidate solution record of the brute-force exercise: the assignment,
its objective value and its feasibility flag. -/
structure CandidateSolution where
  x : List Bool
  obj : ℚ
  feas : Bool
  deriving DecidableEq, Repr, Inhabited

/-- Modelled from the spec: `enumerate_all` of the BruteForceExplorer (the
notebook brute-force cell is an exercise placeholder): for each integer k in
[0, 2^N) with N = |pots|·|species|, derive the N-bit binary representation
(bit 0 = variable index 0), evaluate objective and feasibility, and yield
the candidate. -/
def enumerate_all (np ns : Nat) (count : List Nat) (inst : QUBOInstance) :
    List CandidateSolution :=
  (List.range (2 ^ (np * ns))).map fun k =>
    { x := binVec (np * ns) k
    , obj := objectiveValue inst (binVec (np * ns) k)
    , feas := is_feasible np ns count (binVec (np * ns) k) }

/-- Number of indices k in [a, a + n) whose bit pattern satisfies f; used to
evaluate the brute-force census block by block. -/
def countIn (f : Nat → Bool) (a n : Nat) : Nat :=
  Nat.rec 0 (fun b ih => ih + (if f (a + b) then 1 else 0)) n

/-- Feasibility predicate of the 2×2, 4-species scenario on the integer k
encoding the assignment (bit i of k = variable i). -/
def feasPred (k : Nat) : Bool := is_feasible 4 4 [1, 1, 1, 1] (binVec 16 k)

/-- Bit j of k, as 0 or 1. -/
def bitk (k j : Nat) : Nat := if k / 2 ^ j % 2 == 1 then 1 else 0

/-- Arithmetic normal form of `feasPred`, definitionally equal to it but
built from integer arithmetic only, so the kernel can evaluate the
2^16-candidate census quickly. -/
def feasArith (k : Nat) : Bool :=
  ((bitk k 0 + (bitk k 1 + (bitk k 2 + (bitk k 3 + 0))) == 1) &&
   ((bitk k 4 + (bitk k 5 + (bitk k 6 + (bitk k 7 + 0))) == 1) &&
    ((bitk k 8 + (bitk k 9 + (bitk k 10 + (bitk k 11 + 0))) == 1) &&
     ((bitk k 12 + (bitk k 13 + (bitk k 14 + (bitk k 15 + 0))) == 1) && true)))) &&
  ((bitk k 0 + (bitk k 4 + (bitk k 8 + (bitk k 12 + 0))) == 1) &&
   ((bitk k 1 + (bitk k 5 + (bitk k 9 + (bitk k 13 + 0))) == 1) &&
    ((bitk k 2 + (bitk k 6 + (bitk k 10 + (bitk k 14 + 0))) == 1) &&
     ((bitk k 3 + (bitk k 7 + (bitk k 11 + (bitk k 15 + 0))) == 1) && true))))

/-- Bit of k selected by the power-of-two divisor d, as 0 or 1, with the
branch taken on the Bool directly. -/
def bitc (k d : Nat) : Nat := cond (k / d % 2 == 1) 1 0

/-- Variant of `feasArith` with literal divisors and `cond` branches: the
cheapest form for the kernel to evaluate, equal to `feasArith` pointwise. -/
def feasCond (k : Nat) : Bool :=
  ((bitc k 1 + (bitc k 2 + (bitc k 4 + (bitc k 8 + 0))) == 1) &&
   ((bitc k 16 + (bitc k 32 + (bitc k 64 + (bitc k 128 + 0))) == 1) &&
    ((bitc k 256 + (bitc k 512 + (bitc k 1024 + (bitc k 2048 + 0))) == 1) &&
     ((bitc k 4096 + (bitc k 8192 + (bitc k 16384 + (bitc k 32768 + 0))) == 1) && true)))) &&
  ((bitc k 1 + (bitc k 16 + (bitc k 256 + (bitc k 4096 + 0))) == 1) &&
   ((bitc k 2 + (bitc k 32 + (bitc k 512 + (bitc k 8192 + 0))) == 1) &&
    ((bitc k 4 + (bitc k 64 + (bitc k 1024 + (bitc k 16384 + 0))) == 1) &&
     ((bitc k 8 + (bitc k 128 + (bitc k 2048 + (bitc k 32768 + 0))) == 1) && true))))

/-- The 2×2 pot grid of the notebook scenario. -/
def garden22 : GridTopology := { rows := 2, cols := 2, edges := gridEdges 2 2 }

/-- Catalog of the notebook scenario: 4 species, each required exactly once,
with distinct size classes and a companion matrix holding one like pair and
one dislike pair. -/
def catalog4 : SpeciesCatalog :=
  { count := [1, 1, 1, 1]
  , size := [1, 2, 3, 4]
  , companion := [[0, -1, 0, 0], [-1, 0, 0, 0], [0, 0, 0, 1], [0, 0, 1, 0]] }

/-- Small concrete QUBO instance used by witnesses. -/
def instW : QUBOInstance :=
  { n := 2, Q := [[0, 1], [1, 0]], c := [1, -1], offset := 5 }

/-- Concrete solution records used by witnesses: two entries sharing the
objective value 3. -/
def solA : Sol := { x := [true], prob := 1, obj := 3, feas := true }

/-- Second concrete solution record with the same objective as `solA`. -/
def solB : Sol := { x := [false], prob := 0, obj := 3, feas := false }

/-- Concrete sampling output record used by witnesses: exactly the element
`sampling` builds for the measured pair ([true, false], 3) under 4 shots. -/
def solW : Sol :=
  { x := measuredToX [true, false]
  , prob := ((3 : Nat) : ℚ) / ((4 : Nat) : ℚ)
  , obj := objectiveValue instW (measuredToX [true, false])
  , feas := is_feasible 1 2 [1, 1] (measuredToX [true, false]) }

/-- C1: for every assignment x of length |pots|·|species|, `is_feasible`
returns true if and only if x places exactly one species in every pot and
every species s occurs exactly count[s] times. The check takes neither the
size classes nor the companion matrix nor the penalty weights λ1, λ2, λ3 as
inputs, so the shading constraint and the weights cannot affect it. -/
theorem is_feasible_iff (np ns : Nat) (count : List Nat) (x : List Bool)
    (hlen : x.length = np * ns) :
    is_feasible np ns count x = true ↔
      ((∀ i < np, potSum ns x i = 1) ∧
       (∀ s < ns, speciesSum np ns x s = count.getD s 0)) := by
  unfold is_feasible
  rw [Bool.and_eq_true, List.all_eq_true, List.all_eq_true]
  constructor
  · rintro ⟨h1, h2⟩
    exact ⟨fun i hi => by simpa using h1 i (List.mem_range.mpr hi),
           fun s hs => by simpa using h2 s (List.mem_range.mpr hs)⟩
  · rintro ⟨h1, h2⟩
    exact ⟨fun i hi => by simp [h1 i (List.mem_range.mp hi)],
           fun s hs => by simp [h2 s (List.mem_range.mp hs)]⟩

/-- Witness for C1 at the 2-pot, 2-species assignment planting species 0 in
pot 0 and species 1 in pot 1. -/
theorem is_feasible_iff_witness :
    is_feasible 2 2 [1, 1] [true, false, false, true] = true ↔
      ((∀ i < 2, potSum 2 [true, false, false, true] i = 1) ∧
       (∀ s < 2, speciesSum 2 2 [true, false, false, true] s = [1, 1].getD s 0)) :=
  is_feasible_iff 2 2 [1, 1] [true, false, false, true] (by decide)

/-- C3: the evaluator consumes bitstrings with bit index 0 at BinaryVariable
index 0 (pot 0, species 0, variable index 0·ns+0); a most-significant-bit
first string s is reversed by the `sampling` cell before evaluation, so bit
i of the reversed vector is character (len−1−i) of s, and evaluating the
reversed string equals evaluating the assignment x it denotes. -/
theorem sampling_bit_order (inst : QUBOInstance) (x s : List Bool)
    (hs : s = x.reverse) :
    (∀ i, i < s.length →
      (measuredToX s).getD i false = s.getD (s.length - 1 - i) false) ∧
    (∀ ns : Nat, (measuredToX s).getD (varIndex ns 0 0) false = x.getD 0 false) ∧
    measuredToX s = x ∧
    evaluate_objective inst (measuredToX s) = evaluate_objective inst x := by
  subst hs
  have hxx : measuredToX x.reverse = x := List.reverse_reverse x
  refine ⟨?_, ?_, hxx, by rw [hxx]⟩
  · intro i hi
    rw [List.length_reverse] at hi
    have h1 : x.length - 1 - i < x.length := by omega
    have h2 : x.length - 1 - (x.length - 1 - i) = i := by omega
    rw [measuredToX, List.reverse_reverse, List.getD_eq_getElem?_getD,
      List.getD_eq_getElem?_getD, List.length_reverse,
      List.getElem?_reverse h1, h2]
  · intro ns
    have h0 : varIndex ns 0 0 = 0 := by simp [varIndex]
    rw [h0, hxx]

/-- Witness for C3 at the two-bit string [false, true], the reversal of the
assignment [true, false]. -/
theorem sampling_bit_order_witness :
    (∀ i, i < [false, true].length →
      (measuredToX [false, true]).getD i false =
        [false, true].getD ([false, true].length - 1 - i) false) ∧
    (∀ ns : Nat,
      (measuredToX [false, true]).getD (varIndex ns 0 0) false =
        [true, false].getD 0 false) ∧
    measuredToX [false, true] = [true, false] ∧
    evaluate_objective instW (measuredToX [false, true]) =
      evaluate_objective instW [true, false] :=
  sampling_bit_order instW [true, false] [false, true] (by decide)

/-- C5: `rank` returns the same multiset (a permutation of its input)
sorted ascending by objective value, and it is stable: any two candidates
with equal objective that appear as the in-order pair [a, b] in the input
still appear as the in-order pair [a, b] in the output, so no degenerate
ground state is discarded. -/
theorem rank_sorted_stable (l : List Sol) :
    (rank l).Perm l ∧ (rank l).Sorted solLE ∧
    (∀ a b : Sol, a.obj = b.obj →
      List.Sublist [a, b] l → List.Sublist [a, b] (rank l)) := by
  refine ⟨List.perm_insertionSort solLE l, List.sorted_insertionSort solLE l, ?_⟩
  intro a b hab hsub
  exact List.pair_sublist_insertionSort (le_of_eq hab) hsub

/-- Witness for C5 at a two-element list whose entries share the objective
value 3 but differ in every other field. -/
theorem rank_sorted_stable_witness :
    (rank [solA, solB]).Perm [solA, solB] ∧ (rank [solA, solB]).Sorted solLE ∧
    List.Sublist [solA, solB] (rank [solA, solB]) :=
  ⟨(rank_sorted_stable [solA, solB]).1, (rank_sorted_stable [solA, solB]).2.1,
   (rank_sorted_stable [solA, solB]).2.2 solA solB rfl
     (List.Sublist.refl [solA, solB])⟩

/-- C6: `build_qubo` is deterministic: two calls on equal topology, catalog
and weights return equal (bit-identical) results, and evaluating any
candidate on the rebuilt instance gives the same objective value as on the
original. -/
theorem build_qubo_deterministic (t u : GridTopology) (c1 c2 : SpeciesCatalog)
    (l1 l2 l3 m1 m2 m3 : ℚ) (ht : t = u) (hc : c1 = c2)
    (h1 : l1 = m1) (h2 : l2 = m2) (h3 : l3 = m3) :
    build_qubo t c1 l1 l2 l3 = build_qubo u c2 m1 m2 m3 ∧
    ∀ x : List Bool,
      (build_qubo t c1 l1 l2 l3).map (fun inst => evaluate_objective inst x) =
      (build_qubo u c2 m1 m2 m3).map (fun inst => evaluate_objective inst x) := by
  subst ht; subst hc; subst h1; subst h2; subst h3
  exact ⟨rfl, fun _ => rfl⟩

/-- Witness for C6 at the notebook scenario (2×2 grid, 4 species, weights
λ = (2, 2, 1)). -/
theorem build_qubo_deterministic_witness :
    build_qubo garden22 catalog4 2 2 1 = build_qubo garden22 catalog4 2 2 1 ∧
    ∀ x : List Bool,
      (build_qubo garden22 catalog4 2 2 1).map
        (fun inst => evaluate_objective inst x) =
      (build_qubo garden22 catalog4 2 2 1).map
        (fun inst => evaluate_objective inst x) :=
  build_qubo_deterministic garden22 garden22 catalog4 catalog4
    2 2 1 2 2 1 rfl rfl rfl rfl rfl

/-- C7: the analyzer passes caller-supplied weights through unrescaled:
every entry of the ranked output is one of the supplied entries (its weight
untouched), the multiset of weights is preserved, and nonnegative weights
stay nonnegative; no division or renormalization happens in ranking. -/
theorem rank_preserves_weights (l : List Sol) (h : ∀ e ∈ l, 0 ≤ e.prob) :
    (∀ e ∈ rank l, e ∈ l) ∧
    ((rank l).map Sol.prob).Perm (l.map Sol.prob) ∧
    (∀ e ∈ rank l, 0 ≤ e.prob) := by
  have hperm := List.perm_insertionSort solLE l
  exact ⟨fun e he => hperm.mem_iff.mp he, hperm.map Sol.prob,
         fun e he => h e (hperm.mem_iff.mp he)⟩

/-- Witness for C7 at a two-element list with nonnegative weights. -/
theorem rank_preserves_weights_witness :
    (∀ e ∈ rank [solA, solB], e ∈ [solA, solB]) ∧
    ((rank [solA, solB]).map Sol.prob).Perm ([solA, solB].map Sol.prob) ∧
    (∀ e ∈ rank [solA, solB], 0 ≤ e.prob) :=
  rank_preserves_weights [solA, solB] (by
    intro e he
    rw [List.mem_cons] at he
    rcases he with rfl | he
    · exact zero_le_one
    · rw [List.mem_cons] at he
      rcases he with rfl | he
      · exact le_refl 0
      · cases he)

/-- Bridge between a sum over a mapped range list and a Finset range sum. -/
theorem sum_map_range_eq (n : Nat) (f : Nat → ℚ) :
    ((List.range n).map f).sum = ∑ i ∈ Finset.range n, f i := by
  induction n with
  | zero => simp
  | succ m ih =>
      rw [List.range_succ, List.map_append, List.sum_append,
        Finset.sum_range_succ, ih]
      simp

/-- C2: for every QUBO instance over the |pots|·|species| variable space and
every binary vector x of that length, `evaluate_objective` returns exactly
xᵀQx + cᵀx + offset; for every x of any other length it fails with
`LengthMismatchError`. -/
theorem evaluate_objective_spec (inst : QUBOInstance) (np ns : Nat)
    (hn : inst.n = np * ns) (x : List Bool) :
    (x.length = np * ns →
      evaluate_objective inst x =
        Except.ok ((∑ i ∈ Finset.range inst.n, ∑ j ∈ Finset.range inst.n,
            bitval x i * qEntry inst i j * bitval x j) +
          (∑ i ∈ Finset.range inst.n, cEntry inst i * bitval x i) +
          inst.offset)) ∧
    (x.length ≠ np * ns →
      evaluate_objective inst x = Except.error GOPError.lengthMismatch) := by
  constructor
  · intro hlen
    have hq : quadSum inst x =
        ∑ i ∈ Finset.range inst.n, ∑ j ∈ Finset.range inst.n,
          bitval x i * qEntry inst i j * bitval x j := by
      rw [quadSum, sum_map_range_eq]
      exact Finset.sum_congr rfl fun i _ => sum_map_range_eq _ _
    have hl : linSum inst x =
        ∑ i ∈ Finset.range inst.n, cEntry inst i * bitval x i :=
      sum_map_range_eq _ _
    unfold evaluate_objective
    rw [if_pos (hn ▸ hlen), objectiveValue, hq, hl]
  · intro hlen
    unfold evaluate_objective
    rw [if_neg (hn ▸ hlen)]

/-- Witness for C2 on the concrete 2-variable instance: the full-length
vector is evaluated to the quadratic form, the short vector is rejected. -/
theorem evaluate_objective_spec_witness :
    (evaluate_objective instW [true, false] =
      Except.ok ((∑ i ∈ Finset.range instW.n, ∑ j ∈ Finset.range instW.n,
          bitval [true, false] i * qEntry instW i j * bitval [true, false] j) +
        (∑ i ∈ Finset.range instW.n, cEntry instW i * bitval [true, false] i) +
        instW.offset)) ∧
    evaluate_objective instW [true] = Except.error GOPError.lengthMismatch :=
  ⟨(evaluate_objective_spec instW 1 2 rfl [true, false]).1 rfl,
   (evaluate_objective_spec instW 1 2 rfl [true]).2 (by decide)⟩

/-- C8: every element of the `sampling` output is a record with exactly the
four fields x, prob, obj, feas (the `Sol` type), coming from some measured
(bitstring, count) pair: its prob is that count divided by the n_shots
argument (hence nonnegative), and its obj and feas are both computed from
the same reversed bit vector stored in its x field. -/
theorem sampling_sols_spec (inst : QUBOInstance) (np ns : Nat)
    (count : List Nat) (counts : List (List Bool × Nat)) (n_shots : Nat)
    (e : Sol) (he : e ∈ sampling inst np ns count counts n_shots) :
    ∃ sp ∈ counts,
      e.x = measuredToX sp.1 ∧
      e.prob = (sp.2 : ℚ) / (n_shots : ℚ) ∧
      0 ≤ e.prob ∧
      e.obj = objectiveValue inst e.x ∧
      e.feas = is_feasible np ns count e.x := by
  unfold sampling at he
  obtain ⟨sp, hsp, rfl⟩ := List.mem_map.mp he
  exact ⟨sp, hsp, rfl, rfl,
    div_nonneg (Nat.cast_nonneg _) (Nat.cast_nonneg _), rfl, rfl⟩

/-- Witness for C8 at the single measured pair ([true, false], 3) with 4
shots on the concrete 2-variable instance. -/
theorem sampling_sols_spec_witness :
    ∃ sp ∈ ([([true, false], 3)] : List (List Bool × Nat)),
      solW.x = measuredToX sp.1 ∧
      solW.prob = (sp.2 : ℚ) / ((4 : Nat) : ℚ) ∧
      0 ≤ solW.prob ∧
      solW.obj = objectiveValue instW solW.x ∧
      solW.feas = is_feasible 1 2 [1, 1] solW.x :=
  sampling_sols_spec instW 1 2 [1, 1] [([true, false], 3)] 4 solW
    (List.mem_singleton_self solW)

/-- C9: `plot_solutions` never mutates its dict_sols argument: even with
sort_obj set, each series is sorted into a fresh list, so the caller-visible
dictionary state after the call equals the state before it, while the
plotted series are computed from the sorted copies. -/
theorem plot_solutions_no_mutation (dict_sols : List (String × List Sol))
    (exactRef : ℚ) (showFeasible : Bool) :
    (plot_solutions dict_sols exactRef showFeasible true).2 = dict_sols ∧
    (plot_solutions dict_sols exactRef showFeasible true).1 =
      dict_sols.map fun ls => (ls.1, seriesOf true showFeasible ls.2) :=
  ⟨rfl, rfl⟩

/-- C10: each invocation of `store_intermediate_result` appends exactly one
element to counts and one to values — the value recorded being mean + offset,
not the raw mean — so the length equality of the two lists is preserved
across any sequence of invocations. -/
theorem store_intermediate_result_spec (offset : ℚ) (st : OptHistory)
    (ec : ℚ) (ps : List ℚ) (mean std : ℚ)
    (invs : List (ℚ × List ℚ × ℚ × ℚ))
    (hlen : st.counts.length = st.values.length) :
    (store_intermediate_result offset st ec ps mean std).counts =
        st.counts ++ [ec] ∧
    (store_intermediate_result offset st ec ps mean std).values =
        st.values ++ [mean + offset] ∧
    (runCallbacks offset st invs).counts.length =
        (runCallbacks offset st invs).values.length := by
  refine ⟨rfl, rfl, ?_⟩
  induction invs generalizing st with
  | nil => exact hlen
  | cons t ts ih =>
      apply ih
      simp [store_intermediate_result, hlen]

/-- Witness for C10 at the empty history and a single invocation. -/
theorem store_intermediate_result_spec_witness :
    (store_intermediate_result 5 (OptHistory.mk [] []) 1 [] 2 0).counts =
        [] ++ [1] ∧
    (store_intermediate_result 5 (OptHistory.mk [] []) 1 [] 2 0).values =
        [] ++ [2 + 5] ∧
    (runCallbacks 5 (OptHistory.mk [] []) [(1, [], 2, 0)]).counts.length =
        (runCallbacks 5 (OptHistory.mk [] []) [(1, [], 2, 0)]).values.length :=
  store_intermediate_result_spec 5 (OptHistory.mk [] []) 1 [] 2 0
    [(1, [], 2, 0)] rfl

/-- Unfolding of `countIn` at a successor count. -/
theorem countIn_succ (f : Nat → Bool) (a b : Nat) :
    countIn f a (b + 1) = countIn f a b + (if f (a + b) then 1 else 0) := rfl

/-- The two bit extractors agree when the divisor is the matching power of 2. -/
theorem bit_eq (k j : Nat) : bitk k j = bitc k (2 ^ j) := by
  simp [bitk, bitc, Bool.cond_eq_ite]

/-- The two arithmetic feasibility predicates agree pointwise. -/
theorem feasArith_eq_feasCond (k : Nat) : feasArith k = feasCond k := by
  unfold feasArith feasCond
  simp only [bit_eq]
  norm_num

/-- Counting respects pointwise equal predicates. -/
theorem countIn_congr (f g : Nat → Bool) (h : ∀ k, f k = g k) (a : Nat) :
    ∀ n, countIn f a n = countIn g a n := by
  intro n
  induction n with
  | zero => rfl
  | succ b ih => rw [countIn_succ, countIn_succ, ih, h]

/-- Counting over [a, a + m + n) splits at a + m. -/
theorem countIn_add (f : Nat → Bool) (a m : Nat) :
    ∀ n, countIn f a (m + n) = countIn f a m + countIn f (a + m) n := by
  intro n
  induction n with
  | zero => rfl
  | succ b ih =>
    rw [show m + (b + 1) = (m + b) + 1 from by omega, countIn_succ, ih,
      countIn_succ, Nat.add_assoc a m b, Nat.add_assoc]

/-- The list-based census over `List.range` agrees with `countIn`. -/
theorem countP_eq_countIn (f : Nat → Bool) :
    ∀ n, (List.range n).countP f = countIn f 0 n := by
  intro n
  induction n with
  | zero => rfl
  | succ m ih =>
    rw [List.range_succ, List.countP_append, ih, countIn_succ,
      List.countP_cons, List.countP_nil, Nat.zero_add]
    by_cases h : f m <;> simp [h]

/-- A block on which the predicate is everywhere false counts 0. -/
theorem countIn_eq_zero (f : Nat → Bool) (a : Nat) :
    ∀ n, (∀ j, j < n → f (a + j) = false) → countIn f a n = 0 := by
  intro n
  induction n with
  | zero => intro _; rfl
  | succ b ih =>
    intro h
    rw [countIn_succ, ih (fun j hj => h j (by omega)), h b (by omega)]
    simp

/-- Blocks of 4096 whose high nibble (the fourth pot) is not one-hot contain
no feasible assignment: the fourth pot check of `feasCond` fails throughout. -/
theorem blockFalse (i : Nat)
    (h : i % 2 + i / 2 % 2 + i / 4 % 2 + i / 8 % 2 ≠ 1) :
    ∀ j, j < 4096 → feasCond (4096 * i + j) = false := by
  intro j hj
  have e1 : (4096 * i + j) / 4096 % 2 = i % 2 := by omega
  have e2 : (4096 * i + j) / 8192 % 2 = i / 2 % 2 := by omega
  have e3 : (4096 * i + j) / 16384 % 2 = i / 4 % 2 := by omega
  have e4 : (4096 * i + j) / 32768 % 2 = i / 8 % 2 := by omega
  have hp : bitc (4096 * i + j) 4096 + (bitc (4096 * i + j) 8192 +
      (bitc (4096 * i + j) 16384 + (bitc (4096 * i + j) 32768 + 0))) ≠ 1 := by
    simp only [bitc, e1, e2, e3, e4]
    rcases Nat.mod_two_eq_zero_or_one i with h1 | h1 <;>
      rcases Nat.mod_two_eq_zero_or_one (i / 2) with h2 | h2 <;>
        rcases Nat.mod_two_eq_zero_or_one (i / 4) with h3 | h3 <;>
          rcases Nat.mod_two_eq_zero_or_one (i / 8) with h4 | h4 <;>
            simp [h1, h2, h3, h4] <;> omega
  unfold feasCond
  have hb : (bitc (4096 * i + j) 4096 + (bitc (4096 * i + j) 8192 +
      (bitc (4096 * i + j) 16384 + (bitc (4096 * i + j) 32768 + 0))) == 1) = false := by
    simpa using hp
  rw [hb]
  simp

/-- Kernel census of the block with the fourth pot holding species 0. -/
theorem blockA : countIn feasCond (4096 * 1) 4096 = 6 := by decide!

/-- Kernel census of the block with the fourth pot holding species 1. -/
theorem blockB : countIn feasCond (4096 * 2) 4096 = 6 := by decide!

/-- Kernel census of the block with the fourth pot holding species 2. -/
theorem blockC : countIn feasCond (4096 * 4) 4096 = 6 := by decide!

/-- Kernel census of the block with the fourth pot holding species 3. -/
theorem blockD : countIn feasCond (4096 * 8) 4096 = 6 := by decide!

/-- Census of the 2^16 candidates of the 2×2, 4-species scenario: the 12
blocks whose fourth pot is not one-hot count 0 by `blockFalse`, the 4
remaining blocks count 6 each by kernel evaluation, totalling 24. -/
theorem census : countIn feasCond 0 65536 = 24 := by
  have z : ∀ i, i % 2 + i / 2 % 2 + i / 4 % 2 + i / 8 % 2 ≠ 1 →
      countIn feasCond (4096 * i) 4096 = 0 := fun i h =>
    countIn_eq_zero feasCond (4096 * i) 4096 (blockFalse i h)
  have step : ∀ m v w u, countIn feasCond 0 (4096 * m) = v →
      countIn feasCond (4096 * m) 4096 = w → v + w = u →
      countIn feasCond 0 (4096 * (m + 1)) = u := by
    intro m v w u h1 h2 h3
    rw [Nat.mul_succ, countIn_add, h1, Nat.zero_add, h2, h3]
  have c0 : countIn feasCond 0 (4096 * 0) = 0 := rfl
  have c1 : countIn feasCond 0 (4096 * 1) = 0 :=
    step 0 0 0 0 c0 (z 0 (by omega)) rfl
  have c2 : countIn feasCond 0 (4096 * 2) = 6 := step 1 0 6 6 c1 blockA rfl
  have c3 : countIn feasCond 0 (4096 * 3) = 12 := step 2 6 6 12 c2 blockB rfl
  have c4 : countIn feasCond 0 (4096 * 4) = 12 :=
    step 3 12 0 12 c3 (z 3 (by omega)) rfl
  have c5 : countIn feasCond 0 (4096 * 5) = 18 := step 4 12 6 18 c4 blockC rfl
  have c6 : countIn feasCond 0 (4096 * 6) = 18 :=
    step 5 18 0 18 c5 (z 5 (by omega)) rfl
  have c7 : countIn feasCond 0 (4096 * 7) = 18 :=
    step 6 18 0 18 c6 (z 6 (by omega)) rfl
  have c8 : countIn feasCond 0 (4096 * 8) = 18 :=
    step 7 18 0 18 c7 (z 7 (by omega)) rfl
  have c9 : countIn feasCond 0 (4096 * 9) = 24 := step 8 18 6 24 c8 blockD rfl
  have c10 : countIn feasCond 0 (4096 * 10) = 24 :=
    step 9 24 0 24 c9 (z 9 (by omega)) rfl
  have c11 : countIn feasCond 0 (4096 * 11) = 24 :=
    step 10 24 0 24 c10 (z 10 (by omega)) rfl
  have c12 : countIn feasCond 0 (4096 * 12) = 24 :=
    step 11 24 0 24 c11 (z 11 (by omega)) rfl
  have c13 : countIn feasCond 0 (4096 * 13) = 24 :=
    step 12 24 0 24 c12 (z 12 (by omega)) rfl
  have c14 : countIn feasCond 0 (4096 * 14) = 24 :=
    step 13 24 0 24 c13 (z 13 (by omega)) rfl
  have c15 : countIn feasCond 0 (4096 * 15) = 24 :=
    step 14 24 0 24 c14 (z 14 (by omega)) rfl
  have c16 : countIn feasCond 0 (4096 * 16) = 24 :=
    step 15 24 0 24 c15 (z 15 (by omega)) rfl
  rw [show (65536 : Nat) = 4096 * 16 from rfl]
  exact c16

/-- C4: `enumerate_all` yields exactly 2^(|pots|·|species|) candidates, the
k-th carrying the N-bit binary representation of k with bit 0 at variable
index 0; and in the 2×2 grid scenario with 4 species each required once
(N = 16), the enumeration of all 65536 candidates contains exactly 24
feasible assignments — the permutations of the 4 species into the 4 pots. -/
theorem enumerate_all_spec (np ns : Nat) (count : List Nat)
    (inst inst2 : QUBOInstance) :
    (enumerate_all np ns count inst).length = 2 ^ (np * ns) ∧
    (∀ k, k < 2 ^ (np * ns) →
      ((enumerate_all np ns count inst).getD k default).x =
        binVec (np * ns) k) ∧
    (enumerate_all 4 4 [1, 1, 1, 1] inst2).countP (fun cs => cs.feas) = 24 := by
  refine ⟨by simp [enumerate_all], ?_, ?_⟩
  · intro k hk
    simp [enumerate_all, List.getD_eq_getElem?_getD, List.getElem?_map,
      List.getElem?_range, hk]
  · rw [enumerate_all, List.countP_map, countP_eq_countIn]
    show countIn feasArith 0 (2 ^ (4 * 4)) = 24
    rw [countIn_congr feasArith feasCond feasArith_eq_feasCond 0 (2 ^ (4 * 4)),
      show (2 ^ (4 * 4) : Nat) = 65536 from by norm_num]
    exact census

/-- Witness for C4 at the 2-pot, 2-species model (N = 4): length 16 and the
third candidate carries the bit pattern of k = 3. -/
theorem enumerate_all_spec_witness :
    (enumerate_all 2 2 [1, 1] instW).length = 2 ^ (2 * 2) ∧
    ((enumerate_all 2 2 [1, 1] instW).getD 3 default).x = binVec (2 * 2) 3 :=
  ⟨(enumerate_all_spec 2 2 [1, 1] instW instW).1,
   (enumerate_all_spec 2 2 [1, 1] instW instW).2.1 3 (by decide)⟩

end GOP
